import Mathlib

/-!
Verification of the synchronization engine of the demind-agent-service
repository: the DeFiLlama sync service (`src/services/defiLlamaSync.service.ts`)
and the rate-limited CoinGecko client (`src/lib/apiClients/coingeckoClient.ts`).

The TypeScript code is shallowly embedded: each relevant function is
translated into an executable Lean definition over explicit record types,
and the specification's testable properties are settled as theorems about
those definitions.  Times are modelled as natural numbers of milliseconds,
upstream JSON numbers as integers (their arithmetic is never relevant to
the properties proved here, only their transport), and JavaScript strings
as lists of characters so that `toLowerCase` is computable in proofs.
-/

namespace DemindSync

/-- A JavaScript string, modelled as its character list. -/
abbrev JStr := List Char

/-- JavaScript `String.prototype.toLowerCase`, restricted to the
character-wise lowering that the chain identifiers in this code base
exercise. -/
def jsToLower (s : JStr) : JStr := s.map Char.toLower

/-! ## Chain allow-list and compatibility filter
Embeds `EVM_CHAINS` and `isEVMCompatible` from `defiLlamaSync.service.ts`
(lines 10-83).  The allow-list is stored lower-cased in the source. -/

def EVM_CHAINS : List JStr :=
  [ "ethereum".data, "bsc".data, "polygon".data, "arbitrum".data,
    "optimism".data, "avalanche".data, "base".data, "sonic".data,
    "berachain".data, "zksync".data, "zksync era".data, "fantom".data,
    "cronos".data, "gnosis".data, "moonbeam".data, "moonriver".data,
    "rootstock".data, "linea".data, "kava".data, "metis".data, "celo".data,
    "blast".data, "scroll".data, "mode".data, "mantle".data, "manta".data,
    "fraxtal".data, "unichain".data, "polygon zkevm".data, "sei".data,
    "swellchain".data, "taiko".data, "multi-chain".data ]

/-- An upstream protocol record, with the fields `syncProtocols` reads
(`Protocol` interface of `defiLlamaClient.ts`).  `chain` is optional and,
as in JavaScript, the empty string is falsy for the `protocol.chain &&`
guard; `chains` may be absent.  Numeric payload fields are carried as
integers. -/
structure Protocol where
  id : String
  name : String
  slug : String
  chain : Option JStr
  chains : Option (List JStr)
  category : Option String
  deadFrom : Option Nat
  tvl : Option Int
  change_1h : Option Int
  change_1d : Option Int
  change_7d : Option Int
  mcap : Option Int
  deriving DecidableEq, Repr

/-- First branch of `isEVMCompatible`: `protocol.chain` is truthy and its
lower-casing is in the allow-list. -/
def chainFieldHit (p : Protocol) : Bool :=
  match p.chain with
  | some c => decide (c ≠ []) && EVM_CHAINS.contains (jsToLower c)
  | none => false

/-- Second branch of `isEVMCompatible`: the `chains` array is present and
some entry lower-cases into the allow-list (`Array.prototype.some` on an
empty or absent array is falsy, matching the source's length guard). -/
def chainsListHit (p : Protocol) : Bool :=
  match p.chains with
  | some l => l.any (fun c => EVM_CHAINS.contains (jsToLower c))
  | none => false

/-- Embeds `isEVMCompatible(protocol)` from `defiLlamaSync.service.ts` lines 65-83:
the first `if` only ever returns `true`, so a primary chain outside the
allow-list still falls through to the `chains` check. -/
def isEVMCompatible (p : Protocol) : Bool :=
  chainFieldHit p || chainsListHit p

/-- JavaScript truthiness of `protocol.deadFrom`: the liveness filter
`protocols.filter((protocol) => !protocol.deadFrom)` keeps a record whose
`deadFrom` is absent (or the falsy number 0). -/
def isActiveProtocol (p : Protocol) : Bool :=
  match p.deadFrom with
  | some n => decide (n = 0)
  | none => true

theorem chainFieldHit_iff (p : Protocol) :
    chainFieldHit p = true ↔ ∃ c, p.chain = some c ∧ jsToLower c ∈ EVM_CHAINS := by
  unfold chainFieldHit
  cases h : p.chain with
  | none => simp
  | some c =>
    simp only [Bool.and_eq_true, decide_eq_true_eq, Option.some.injEq]
    constructor
    · rintro ⟨-, hm⟩
      exact ⟨c, rfl, by simpa using hm⟩
    · rintro ⟨c', rfl, hm⟩
      refine ⟨?_, by simpa using hm⟩
      rintro rfl
      revert hm
      decide

theorem chainsListHit_iff (p : Protocol) :
    chainsListHit p = true ↔
      ∃ l, p.chains = some l ∧ ∃ c ∈ l, jsToLower c ∈ EVM_CHAINS := by
  unfold chainsListHit
  cases h : p.chains with
  | none => simp
  | some l => simp [List.any_eq_true]

theorem jsToLower_eq_nil_iff (c : JStr) : jsToLower c = [] ↔ c = [] := by
  simp [jsToLower]

theorem chainFieldHit_congr (p q : Protocol)
    (h : p.chain.map jsToLower = q.chain.map jsToLower) :
    chainFieldHit p = chainFieldHit q := by
  cases hp : p.chain with
  | none =>
    cases hq : q.chain with
    | none => simp [chainFieldHit, hp, hq]
    | some c => rw [hp, hq] at h; simp at h
  | some c =>
    cases hq : q.chain with
    | none => rw [hp, hq] at h; simp at h
    | some d =>
      rw [hp, hq] at h
      simp only [Option.map_some', Option.some.injEq] at h
      have hnil : (c = []) ↔ (d = []) := by
        rw [← jsToLower_eq_nil_iff, ← jsToLower_eq_nil_iff d, h]
      simp only [chainFieldHit, hp, hq, h]
      by_cases hc : c = []
      · simp [hc, hnil.mp hc]
      · have hd : d ≠ [] := fun hd => hc (hnil.mpr hd)
        simp [hc, hd]

theorem chainsListHit_congr (p q : Protocol)
    (h : p.chains.map (List.map jsToLower) = q.chains.map (List.map jsToLower)) :
    chainsListHit p = chainsListHit q := by
  cases hp : p.chains with
  | none =>
    cases hq : q.chains with
    | none => simp [chainsListHit, hp, hq]
    | some l => rw [hp, hq] at h; simp at h
  | some l =>
    cases hq : q.chains with
    | none => rw [hp, hq] at h; simp at h
    | some m =>
      rw [hp, hq] at h
      simp only [Option.map_some', Option.some.injEq] at h
      have : l.map jsToLower = m.map jsToLower := h
      rw [Bool.eq_iff_iff]
      simp only [chainsListHit, hp, hq, List.any_eq_true]
      constructor <;> intro hx
      · obtain ⟨c, hc, hmem⟩ := hx
        have : jsToLower c ∈ m.map jsToLower := by
          rw [← this]; exact List.mem_map_of_mem _ hc
        obtain ⟨d, hd, hde⟩ := List.mem_map.mp this
        exact ⟨d, hd, by rw [hde]; exact hmem⟩
      · obtain ⟨c, hc, hmem⟩ := hx
        have : jsToLower c ∈ l.map jsToLower := by
          rw [this]; exact List.mem_map_of_mem _ hc
        obtain ⟨d, hd, hde⟩ := List.mem_map.mp this
        exact ⟨d, hd, by rw [hde]; exact hmem⟩

/-- C8: The chain-compatibility predicate `isEVMCompatible` is a pure
function of `chain`/`chains`: (1) it accepts a record iff the lower-cased
primary chain or at least one lower-cased entry of the chain list is in the
allow-list; (2) two records whose chain fields agree up to letter-case are
classified identically; (3) a record whose primary chain lower-cases to the
sentinel `"multi-chain"` is always accepted. -/
theorem isEVMCompatible_caseInsensitive_characterization :
    (∀ p : Protocol, isEVMCompatible p = true ↔
      ((∃ c, p.chain = some c ∧ jsToLower c ∈ EVM_CHAINS) ∨
       (∃ l, p.chains = some l ∧ ∃ c ∈ l, jsToLower c ∈ EVM_CHAINS))) ∧
    (∀ p q : Protocol,
      p.chain.map jsToLower = q.chain.map jsToLower →
      p.chains.map (List.map jsToLower) = q.chains.map (List.map jsToLower) →
      isEVMCompatible p = isEVMCompatible q) ∧
    (∀ (p : Protocol) (c : JStr),
      p.chain = some c → jsToLower c = "multi-chain".data →
      isEVMCompatible p = true) := by
  refine ⟨?_, ?_, ?_⟩
  · intro p
    unfold isEVMCompatible
    rw [Bool.or_eq_true, chainFieldHit_iff, chainsListHit_iff]
  · intro p q h1 h2
    unfold isEVMCompatible
    rw [chainFieldHit_congr p q h1, chainsListHit_congr p q h2]
  · intro p c hc hlower
    unfold isEVMCompatible chainFieldHit
    rw [hc]
    have hne : c ≠ [] := by
      intro h; rw [h] at hlower; revert hlower; decide
    simp only [hne, decide_not, Bool.or_eq_true, Bool.and_eq_true,
      decide_eq_true_eq, hlower]
    left
    exact ⟨by simp [hne], by decide⟩

/-- Witness for C8 at concrete inputs: a record carrying `"ArBiTrUm"` is
classified like one carrying `"arbitrum"`, and a `"Multi-Chain"` record is
accepted. -/
theorem isEVMCompatible_caseInsensitive_characterization_witness :
    (isEVMCompatible ⟨"1", "a", "a", some "ArBiTrUm".data, none, none, none,
        none, none, none, none, none⟩ =
     isEVMCompatible ⟨"2", "b", "b", some "arbitrum".data, none, none, none,
        none, none, none, none, none⟩) ∧
    isEVMCompatible ⟨"3", "c", "c", some "Multi-Chain".data, none, none, none,
        none, none, none, none, none⟩ = true := by
  refine ⟨?_, ?_⟩
  · exact isEVMCompatible_caseInsensitive_characterization.2.1 _ _
      (by decide) (by decide)
  · exact isEVMCompatible_caseInsensitive_characterization.2.2 _
      "Multi-Chain".data rfl (by decide)

/-! ## Batch reconciliation: chunking and the insert-vs-update partition
Embeds `chunkArray` (lines 54-60) and the per-chunk partition of
`syncProtocols` (lines 152-158) / `syncPools` (lines 385-386). -/

def BATCH_SIZE : Nat := 500

/-- Slicing worker behind `chunkArray`: each step emits the slice
`(x :: xs).take (su+1)` and recurses on `(x :: xs).drop (su+1)`.  The fuel
argument makes the recursion structural; every step consumes at least one
element, so fuel `l.length` is always enough. -/
def chunkArrayAux (su : Nat) : Nat → List α → List (List α)
  | 0, _ => []
  | _ + 1, [] => []
  | fuel + 1, x :: xs => (x :: xs.take su) :: chunkArrayAux su fuel (xs.drop su)

/-- Embeds `chunkArray(array, size)` from `defiLlamaSync.service.ts` lines 54-60:
successive `size`-slices of the array.  The source only ever calls it with a
positive size (500, 1000, 100); a zero size would loop forever in the
JavaScript (`i += 0`) and is mapped to `[]` here to keep the function
total. -/
def chunkArray (l : List α) (size : Nat) : List (List α) :=
  match size with
  | 0 => []
  | su + 1 => chunkArrayAux su l.length l

theorem chunkArrayAux_flatten (su : Nat) :
    ∀ (fuel : Nat) (l : List α), l.length ≤ fuel →
      (chunkArrayAux su fuel l).flatten = l := by
  intro fuel
  induction fuel with
  | zero => intro l hl; rw [Nat.le_zero, List.length_eq_zero] at hl; simp [hl, chunkArrayAux]
  | succ n ih =>
    intro l hl
    cases l with
    | nil => simp [chunkArrayAux]
    | cons x xs =>
      rw [chunkArrayAux, List.flatten_cons,
        ih (xs.drop su) (by simp only [List.length_drop, List.length_cons] at hl ⊢; omega), List.cons_append,
        List.take_append_drop]

theorem chunkArray_flatten (su : Nat) (l : List α) :
    (chunkArray l (su + 1)).flatten = l :=
  chunkArrayAux_flatten su l.length l le_rfl

theorem chunkArrayAux_filter_flatten (su : Nat) (p : α → Bool) :
    ∀ (fuel : Nat) (l : List α), l.length ≤ fuel →
      ((chunkArrayAux su fuel l).map (fun c => c.filter p)).flatten =
        l.filter p := by
  intro fuel
  induction fuel with
  | zero => intro l hl; rw [Nat.le_zero, List.length_eq_zero] at hl; simp [hl, chunkArrayAux]
  | succ n ih =>
    intro l hl
    cases l with
    | nil => simp [chunkArrayAux]
    | cons x xs =>
      rw [chunkArrayAux, List.map_cons, List.flatten_cons,
        ih (xs.drop su) (by simp only [List.length_drop, List.length_cons] at hl ⊢; omega)]
      have : (x :: xs.take su).filter p ++ (xs.drop su).filter p =
          ((x :: xs.take su) ++ xs.drop su).filter p :=
        (List.filter_append _ _).symm
      rw [this, List.cons_append, List.take_append_drop]

theorem chunkArray_filter_flatten (su : Nat) (p : α → Bool) (l : List α) :
    ((chunkArray l (su + 1)).map (fun c => c.filter p)).flatten = l.filter p :=
  chunkArrayAux_filter_flatten su p l.length l le_rfl

/-- The concatenation over all `BATCH_SIZE`-chunks of each chunk's
`newProtocols` slice (`chunk.filter((p) => !existingProtocolIds.has(p.id))`,
line 153-155). -/
def toCreateOf (existing : List String) (records : List Protocol) : List Protocol :=
  ((chunkArray records BATCH_SIZE).map
    (fun chunk => chunk.filter (fun p => !(existing.contains p.id)))).flatten

/-- The concatenation over all `BATCH_SIZE`-chunks of each chunk's
`existingProtocols` slice (`chunk.filter((p) => existingProtocolIds.has(p.id))`,
line 156-158). -/
def toUpdateOf (existing : List String) (records : List Protocol) : List Protocol :=
  ((chunkArray records BATCH_SIZE).map
    (fun chunk => chunk.filter (fun p => existing.contains p.id))).flatten

/-- Modelled from the spec's words (§4.3 edge case: "must deduplicate by
identifier before chunking"): keep the first record carrying each
identifier.  The source performs no such deduplication; this definition
exists only to compare the two. -/
def specDedupById (records : List Protocol) : List Protocol :=
  records.foldl
    (fun acc p => if acc.any (fun q => q.id == p.id) then acc else acc ++ [p]) []

theorem toCreateOf_eq_filter (existing : List String) (records : List Protocol) :
    toCreateOf existing records =
      records.filter (fun p => !(existing.contains p.id)) := by
  unfold toCreateOf BATCH_SIZE
  exact chunkArray_filter_flatten 499 _ records

theorem toUpdateOf_eq_filter (existing : List String) (records : List Protocol) :
    toUpdateOf existing records =
      records.filter (fun p => existing.contains p.id) := by
  unfold toUpdateOf BATCH_SIZE
  exact chunkArray_filter_flatten 499 _ records

/-- The duplicated record used to refute the deduplication clause of the
partition claim. -/
def pDup : Protocol :=
  ⟨"aave", "Aave", "aave", some "ethereum".data, none, none, none,
    none, none, none, none, none⟩

/-- C1 counterexample:  A payload holding the same record twice, with
its identifier absent from the store: the partition puts both copies into
`toCreate` (length 2), while the specification's deduplicated input holds it
once — duplicate identifiers are double-counted, so `toCreate` is not the
deduplicated absent-id subset the claim asserts. -/
theorem syncPartition_duplicates_double_counted :
    (toCreateOf [] [pDup, pDup]).length = 2 ∧
    (specDedupById [pDup, pDup]).length = 1 ∧
    toCreateOf [] [pDup, pDup] ≠ specDedupById [pDup, pDup] := by
  refine ⟨by decide, by decide, by decide⟩

/-- C1 amended:  The partition of `syncProtocols`/`syncPools` does not
deduplicate: over any input and any pre-existing identifier set, `toCreate`
is exactly the raw input records whose identifier is absent, `toUpdate`
exactly those whose identifier is present, their concatenation is a
permutation of the raw input, and no identifier occurs on both sides — but a
duplicated identifier keeps all its occurrences on its side of the
partition. -/
theorem syncPartition_characterization (existing : List String)
    (records : List Protocol) :
    toCreateOf existing records =
        records.filter (fun p => !(existing.contains p.id)) ∧
    toUpdateOf existing records =
        records.filter (fun p => existing.contains p.id) ∧
    List.Perm (toCreateOf existing records ++ toUpdateOf existing records)
        records ∧
    ((toCreateOf existing records).all (fun p =>
      (toUpdateOf existing records).all (fun q => p.id != q.id))) = true := by
  refine ⟨toCreateOf_eq_filter _ _, toUpdateOf_eq_filter _ _, ?_, ?_⟩
  · rw [toCreateOf_eq_filter, toUpdateOf_eq_filter]
    have := List.filter_append_perm
      (fun p : Protocol => !(existing.contains p.id)) records
    simpa using this
  · rw [List.all_eq_true]
    intro p hp
    rw [List.all_eq_true]
    intro q hq
    rw [toCreateOf_eq_filter] at hp
    rw [toUpdateOf_eq_filter] at hq
    have hp2 := (List.mem_filter.mp hp).2
    have hq2 := (List.mem_filter.mp hq).2
    simp only [bne_iff_ne, ne_eq]
    intro hid
    rw [hid, hq2] at hp2
    simp at hp2

/-! ## Compatibility-filter counters of `syncProtocols` and `syncPools` -/

/-- Embeds `activeProtocols` (line 106-108): the liveness filter. -/
def activeProtocols (ps : List Protocol) : List Protocol :=
  ps.filter isActiveProtocol

/-- Embeds `evmProtocols` (line 117-119): the chain filter applied after the
liveness filter. -/
def evmProtocols (ps : List Protocol) : List Protocol :=
  (activeProtocols ps).filter isEVMCompatible

/-- Embeds `skippedInactiveCount` (line 114). -/
def skippedInactiveCount (ps : List Protocol) : Nat :=
  ps.length - (activeProtocols ps).length

/-- Embeds `skippedNonEVMCount` (line 125). -/
def skippedNonEVMCount (ps : List Protocol) : Nat :=
  (activeProtocols ps).length - (evmProtocols ps).length

/-- An upstream pool record, with the fields `syncPools` reads
(`Pool` interface of `defiLlamaClient.ts`). `pool` is the upstream pool
identifier and `project` the parent protocol's slug. -/
structure Pool where
  pool : String
  project : String
  chain : JStr
  symbol : String
  tvlUsd : Int
  apy : Option Int
  apyBase : Option Int
  apyReward : Option Int
  rewardTokens : Option (List String)
  stablecoin : Option Bool
  ilRisk : Option String
  exposure : Option String
  poolMeta : Option String
  underlyingTokens : Option (List JStr)
  deriving DecidableEq, Repr

/-- The referential filter of `syncPools` (lines 349-351): the pool's
`project` slug must be among the protocol slugs loaded from the store. -/
def isValidProjectPool (slugs : List String) (p : Pool) : Bool :=
  slugs.contains p.project

/-- The chain filter of `syncPools` (lines 362-364): unlike the protocol
variant there is no `chains` fallback, the single `chain` field must
lower-case into the allow-list. -/
def isEVMChainPool (p : Pool) : Bool :=
  EVM_CHAINS.contains (jsToLower p.chain)

/-- Embeds `validPools` (lines 349-351). -/
def validPools (slugs : List String) (ps : List Pool) : List Pool :=
  ps.filter (isValidProjectPool slugs)

/-- Embeds `invalidPools`, whose length is `skippedCount` (lines 352-355). -/
def invalidPools (slugs : List String) (ps : List Pool) : List Pool :=
  ps.filter (fun p => !(isValidProjectPool slugs p))

/-- Embeds `evmPools` (lines 362-364). -/
def evmPools (slugs : List String) (ps : List Pool) : List Pool :=
  (validPools slugs ps).filter isEVMChainPool

/-- Embeds `skippedNonEVMCount` of `syncPools` (line 365). -/
def skippedNonEVMPoolCount (slugs : List String) (ps : List Pool) : Nat :=
  (validPools slugs ps).length - (evmPools slugs ps).length

/-- C7:  The compatibility filters split each fetched batch into three
pairwise-disjoint classes whose counts sum to the upstream batch size: for
protocols, accepted / skipped-inactive / skipped-non-EVM; for pools,
accepted / skipped-missing-parent / skipped-non-EVM.  Disjointness is
expressed pointwise: every record satisfies exactly one of the three
classifying predicates. -/
theorem filterCounts_partition_input :
    (∀ ps : List Protocol,
      (evmProtocols ps).length + skippedInactiveCount ps +
        skippedNonEVMCount ps = ps.length) ∧
    (∀ p : Protocol,
      (!isActiveProtocol p).toNat +
        (isActiveProtocol p && !isEVMCompatible p).toNat +
        (isActiveProtocol p && isEVMCompatible p).toNat = 1) ∧
    (∀ (slugs : List String) (ps : List Pool),
      (evmPools slugs ps).length + (invalidPools slugs ps).length +
        skippedNonEVMPoolCount slugs ps = ps.length) ∧
    (∀ (slugs : List String) (p : Pool),
      (!isValidProjectPool slugs p).toNat +
        (isValidProjectPool slugs p && !isEVMChainPool p).toNat +
        (isValidProjectPool slugs p && isEVMChainPool p).toNat = 1) := by
  refine ⟨?_, ?_, ?_, ?_⟩
  · intro ps
    have h1 : (activeProtocols ps).length ≤ ps.length :=
      List.length_filter_le _ _
    have h2 : (evmProtocols ps).length ≤ (activeProtocols ps).length :=
      List.length_filter_le _ _
    unfold skippedInactiveCount skippedNonEVMCount
    omega
  · intro p
    cases isActiveProtocol p <;> cases isEVMCompatible p <;> rfl
  · intro slugs ps
    have h1 : (validPools slugs ps).length ≤ ps.length :=
      List.length_filter_le _ _
    have h2 : (evmPools slugs ps).length ≤ (validPools slugs ps).length :=
      List.length_filter_le _ _
    have h3 : (validPools slugs ps).length + (invalidPools slugs ps).length =
        ps.length := by
      have := (List.filter_append_perm (isValidProjectPool slugs) ps).length_eq
      rw [List.length_append] at this
      simpa [validPools, invalidPools] using this
    unfold skippedNonEVMPoolCount
    omega
  · intro slugs p
    cases isValidProjectPool slugs p <;> cases isEVMChainPool p <;> rfl

/-! ## Idempotence of `syncProtocols` against an unchanged payload -/

/-- One fully-successful pass of `syncProtocols` over the persisted id set:
the accepted records are partitioned against the currently persisted ids
(lines 127-158), every `toCreate` record is inserted by the per-chunk
transactions (lines 160-217), and updates touch existing rows only — so the
persisted id set grows by exactly the created ids. -/
def runSyncProtocolsIds (dbIds : List String) (ps : List Protocol) :
    List String :=
  dbIds ++ (toCreateOf dbIds (evmProtocols ps)).map Protocol.id

/-- C6:  Running `syncProtocols` a second time against an unchanged
payload, after a first run that persisted every accepted record: the second
run's `toCreate` partition is empty (zero creates), every accepted record
falls into `toUpdate`, and the persisted id set — hence the row count — is
unchanged. -/
theorem syncProtocols_idempotent (dbIds : List String) (ps : List Protocol) :
    toCreateOf (runSyncProtocolsIds dbIds ps) (evmProtocols ps) = [] ∧
    toUpdateOf (runSyncProtocolsIds dbIds ps) (evmProtocols ps) =
      evmProtocols ps ∧
    runSyncProtocolsIds (runSyncProtocolsIds dbIds ps) ps =
      runSyncProtocolsIds dbIds ps := by
  have hmem : ∀ p ∈ evmProtocols ps, p.id ∈ runSyncProtocolsIds dbIds ps := by
    intro p hp
    unfold runSyncProtocolsIds
    rw [List.mem_append]
    by_cases h : p.id ∈ dbIds
    · exact Or.inl h
    · right
      apply List.mem_map_of_mem
      rw [toCreateOf_eq_filter]
      refine List.mem_filter.mpr ⟨hp, ?_⟩
      simp [h]
  have hcreate :
      toCreateOf (runSyncProtocolsIds dbIds ps) (evmProtocols ps) = [] := by
    rw [toCreateOf_eq_filter, List.filter_eq_nil_iff]
    intro p hp
    simp [hmem p hp]
  refine ⟨hcreate, ?_, ?_⟩
  · rw [toUpdateOf_eq_filter]
    apply List.filter_eq_self.mpr
    intro p hp
    simp [hmem p hp]
  · conv_lhs => rw [runSyncProtocolsIds, hcreate]
    simp

/-! ## Rate-limited CoinGecko client: bounded request queue
Embeds `addToQueue` from `coingeckoClient.ts` lines 201-220. -/

def MAX_QUEUE_SIZE : Nat := 50

/-- The error thrown when the pending queue is full. -/
inductive QueueError where
  | queueFull
  deriving DecidableEq, Repr

/-- Embeds `addToQueue(apiCall)` (lines 201-220): the length guard runs before the
push and before any waiting, so on overflow the queue is untouched and the
caller fails at once; otherwise the call is appended to the queue.  The
model returns the throw/accept outcome together with the resulting
queue. -/
def addToQueue {α : Type} (queue : List (Unit → α)) (apiCall : Unit → α) :
    Except QueueError Unit × List (Unit → α) :=
  if MAX_QUEUE_SIZE ≤ queue.length then
    (Except.error QueueError.queueFull, queue)
  else
    (Except.ok (), queue ++ [apiCall])

/-- The single worker drains the queue front to back, settling each queued
promise with its own operation's result (`processQueue` /
`requestQueue.push` wrapper, lines 153-199 and 209-218). -/
def drainQueue {α : Type} (queue : List (Unit → α)) : List α :=
  queue.map (fun f => f ())

/-- C10:  With `MAX_QUEUE_SIZE` (or more) calls already pending, the
next enqueue fails at once with the queue-full error and the queue is
unchanged; below the bound the call is appended and draining the queue
settles it with its operation's own result. -/
theorem addToQueue_bounded {α : Type} (queue : List (Unit → α)) (apiCall : Unit → α) :
    (MAX_QUEUE_SIZE ≤ queue.length →
      addToQueue queue apiCall = (Except.error QueueError.queueFull, queue)) ∧
    (queue.length < MAX_QUEUE_SIZE →
      addToQueue queue apiCall = (Except.ok (), queue ++ [apiCall]) ∧
      drainQueue (queue ++ [apiCall]) = drainQueue queue ++ [apiCall ()]) := by
  constructor
  · intro h
    simp [addToQueue, h]
  · intro h
    refine ⟨by simp [addToQueue, Nat.not_le_of_lt h], ?_⟩
    simp [drainQueue]

/-- Witness for C10: a queue of 50 pending calls rejects the 51st enqueue
without modification, and an empty queue accepts a call whose drain yields
its result. -/
theorem addToQueue_bounded_witness :
    addToQueue (List.replicate 50 (fun _ => (0 : Nat))) (fun _ => 1) =
      (Except.error QueueError.queueFull, List.replicate 50 (fun _ => 0)) ∧
    addToQueue ([] : List (Unit → Nat)) (fun _ => 1) =
      (Except.ok (), [fun _ => 1]) := by
  constructor
  · exact (addToQueue_bounded _ _).1 (by simp [MAX_QUEUE_SIZE])
  · exact ((addToQueue_bounded _ _).2 (by simp [MAX_QUEUE_SIZE])).1

/-! ## Rate-limited client: bounded retry loop
Embeds `handleApiError` (lines 223-271) and the shared
`for (attempt = 1; attempt <= MAX_RETRIES; attempt++)` structure of
`getCoinsList` (273-305), `getCoinDetails` (307-340) and
`getTrendingCoins` (342-375). -/

def MAX_RETRIES : Nat := 5

/-- What one attempt's `try` block does, as observed by the `catch`: either
the body returns a value of the method's result type (the parsed data, or
the method's immediate parse-failure return value), or it throws one of
the error classes `handleApiError` distinguishes. -/
inductive ApiOutcome (β : Type) where
  | success (value : β)
  | http429 (retryAfterSeconds : Option Nat)
  | connReset
  | otherError
  deriving DecidableEq, Repr

/-- Embeds `handleApiError` (lines 223-271) reduced to its returned should-retry
decision: `true` only for a 429 with attempts remaining or an `ECONNRESET`
with attempts remaining; any other error reaches the final
`return false`. -/
def handleApiError (outcome : ApiOutcome β) (attempt maxRetries : Nat) : Bool :=
  match outcome with
  | ApiOutcome.http429 _ => decide (attempt < maxRetries)
  | ApiOutcome.connReset => decide (attempt < maxRetries)
  | _ => false

/-- The retry loop shared by the three client methods: on a returned value
it resolves with it; on an error it consults `handleApiError` and then —
whether or not a retry was signalled — proceeds to the next attempt,
except that the final attempt resolves with the neutral value
(`return []` / `return null` after `attempt === MAX_RETRIES`).  The fuel
equals the remaining loop iterations; the fuel-exhausted case is the
`return` after the loop (line 303).  Returns the result together with the
number of attempts made. -/
def retryLoop (out : Nat → ApiOutcome β) (neutral : β) :
    Nat → Nat → β × Nat
  | attempt, 0 => (neutral, attempt - 1)
  | attempt, fuel + 1 =>
    match out attempt with
    | ApiOutcome.success v => (v, attempt)
    | e =>
      if handleApiError e attempt MAX_RETRIES then
        retryLoop out neutral (attempt + 1) fuel
      else if attempt = MAX_RETRIES then (neutral, attempt)
      else retryLoop out neutral (attempt + 1) fuel

/-- A coin-list entry (`CoinListItemSchema`). -/
structure CoinListItem where
  id : String
  symbol : String
  name : String
  deriving DecidableEq, Repr

/-- A coin detail record (`ApiCoinDetailSchema`), reduced to its identity
fields; the claims only transport it. -/
structure ApiCoinDetail where
  id : String
  symbol : String
  name : String
  deriving DecidableEq, Repr

/-- A trending-list entry (`TrendingCoinItemSchema.item`). -/
structure TrendingCoinItem where
  id : String
  name : String
  symbol : String
  deriving DecidableEq, Repr

/-- Embeds `getCoinsList` (lines 273-305): neutral result `[]`. -/
def getCoinsList (out : Nat → ApiOutcome (List CoinListItem)) :
    List CoinListItem × Nat :=
  retryLoop out [] 1 MAX_RETRIES

/-- Embeds `getCoinDetails` (lines 307-340): neutral result `null`. -/
def getCoinDetails (out : Nat → ApiOutcome (Option ApiCoinDetail)) :
    Option ApiCoinDetail × Nat :=
  retryLoop out none 1 MAX_RETRIES

/-- Embeds `getTrendingCoins` (lines 342-375): neutral result `[]`. -/
def getTrendingCoins (out : Nat → ApiOutcome (List TrendingCoinItem)) :
    List TrendingCoinItem × Nat :=
  retryLoop out [] 1 MAX_RETRIES

/-- An attempt outcome that the `catch` block sees (any thrown error). -/
def isErrorOutcome : ApiOutcome β → Bool
  | ApiOutcome.success _ => false
  | _ => true

theorem retryLoop_error_lt (out : Nat → ApiOutcome β) (neutral : β)
    (k fuel : Nat) (h : isErrorOutcome (out k) = true) (hk : k < MAX_RETRIES) :
    retryLoop out neutral k (fuel + 1) = retryLoop out neutral (k + 1) fuel := by
  cases hout : out k with
  | success v => rw [hout] at h; simp [isErrorOutcome] at h
  | http429 ra => simp [retryLoop, hout, handleApiError, hk]
  | connReset => simp [retryLoop, hout, handleApiError, hk]
  | otherError =>
    simp [retryLoop, hout, handleApiError, Nat.ne_of_lt hk]

theorem retryLoop_error_last (out : Nat → ApiOutcome β) (neutral : β)
    (fuel : Nat) (h : isErrorOutcome (out MAX_RETRIES) = true) :
    retryLoop out neutral MAX_RETRIES (fuel + 1) = (neutral, MAX_RETRIES) := by
  cases hout : out MAX_RETRIES with
  | success v => rw [hout] at h; simp [isErrorOutcome] at h
  | http429 ra => simp [retryLoop, hout, handleApiError]
  | connReset => simp [retryLoop, hout, handleApiError]
  | otherError => simp [retryLoop, hout, handleApiError]

theorem retryLoop_all_errors (out : Nat → ApiOutcome β) (neutral : β)
    (h : ∀ i, 1 ≤ i → i ≤ MAX_RETRIES → isErrorOutcome (out i) = true) :
    retryLoop out neutral 1 MAX_RETRIES = (neutral, MAX_RETRIES) := by
  rw [show MAX_RETRIES = 4 + 1 from rfl,
    retryLoop_error_lt out neutral 1 _ (h 1 (by decide) (by decide)) (by decide),
    retryLoop_error_lt out neutral 2 _ (h 2 (by decide) (by decide)) (by decide),
    retryLoop_error_lt out neutral 3 _ (h 3 (by decide) (by decide)) (by decide),
    retryLoop_error_lt out neutral 4 _ (h 4 (by decide) (by decide)) (by decide)]
  exact retryLoop_error_last out neutral 0 (h 5 (by decide) (by decide))

/-- C3 counterexample:  Every attempt throws an error that is neither
a 429 nor a connection reset: the loop nevertheless makes all 5 attempts —
so the call *is* retried after such an error — and the method resolves with
the neutral `[]` instead of propagating the error. -/
theorem nonRetryableError_still_retried :
    getCoinsList (fun _ => ApiOutcome.otherError) = ([], 5) ∧ (5 : Nat) ≠ 1 := by
  refine ⟨rfl, by decide⟩

/-- C3 amended:  For an error that is neither a 429 nor a connection
reset, `handleApiError` does signal no-retry (so no retry delay is taken),
but the enclosing loop still proceeds to the next attempt while attempts
remain — a success on the following attempt is returned as the method's
result — and when every attempt fails the method resolves with the neutral
result rather than propagating the error to the caller. -/
theorem nonRetryableError_behavior :
    (∀ (β : Type) (k m : Nat),
      handleApiError (ApiOutcome.otherError : ApiOutcome β) k m = false) ∧
    (∀ (out : Nat → ApiOutcome (List CoinListItem)) (v : List CoinListItem),
      out 1 = ApiOutcome.otherError → out 2 = ApiOutcome.success v →
      getCoinsList out = (v, 2)) ∧
    (∀ out : Nat → ApiOutcome (List CoinListItem),
      (∀ i, out i = ApiOutcome.otherError) → getCoinsList out = ([], 5)) := by
  refine ⟨fun β k m => rfl, ?_, ?_⟩
  · intro out v h1 h2
    unfold getCoinsList
    rw [show MAX_RETRIES = 4 + 1 from rfl,
      retryLoop_error_lt out [] 1 _ (by rw [h1]; rfl) (by decide)]
    simp [retryLoop, h2]
  · intro out h
    exact retryLoop_all_errors out [] (fun i _ _ => by rw [h i]; rfl)

/-- Witness for C3 (amended): concretely, an unclassified error on attempt
1 followed by a successful attempt 2 yields the second attempt's data, and
five unclassified errors yield `([], 5)`. -/
theorem nonRetryableError_behavior_witness :
    getCoinsList (fun i => if i = 2 then
        ApiOutcome.success [⟨"bitcoin", "btc", "Bitcoin"⟩]
      else ApiOutcome.otherError) = ([⟨"bitcoin", "btc", "Bitcoin"⟩], 2) ∧
    handleApiError (ApiOutcome.otherError : ApiOutcome (List CoinListItem)) 1 5
      = false := by
  constructor
  · exact nonRetryableError_behavior.2.1 _ _ rfl rfl
  · exact nonRetryableError_behavior.1 _ 1 5

/-- C4:  Whenever every attempt of the bounded retry loop fails — with
any mix of 429, connection-reset and other errors — the client method
resolves with its empty or neutral result after `MAX_RETRIES` attempts:
`[]` for `getCoinsList` and `getTrendingCoins`, `null` for
`getCoinDetails`.  No exception escapes: every error is caught by the loop
and the exhaustion path returns the neutral value. -/
theorem retryExhaustion_neutral_result :
    (∀ out : Nat → ApiOutcome (List CoinListItem),
      (∀ i, isErrorOutcome (out i) = true) → getCoinsList out = ([], 5)) ∧
    (∀ out : Nat → ApiOutcome (Option ApiCoinDetail),
      (∀ i, isErrorOutcome (out i) = true) → getCoinDetails out = (none, 5)) ∧
    (∀ out : Nat → ApiOutcome (List TrendingCoinItem),
      (∀ i, isErrorOutcome (out i) = true) → getTrendingCoins out = ([], 5)) := by
  refine ⟨?_, ?_, ?_⟩ <;>
    exact fun out h => retryLoop_all_errors out _ (fun i _ _ => h i)

/-- Witness for C4: a client whose attempts alternate 429, reset and other
errors resolves with the neutral results. -/
theorem retryExhaustion_neutral_result_witness :
    getCoinsList (fun i => if i = 1 then ApiOutcome.http429 (some 5)
      else if i = 2 then ApiOutcome.connReset else ApiOutcome.otherError)
      = ([], 5) ∧
    getCoinDetails (fun _ => ApiOutcome.http429 none) = (none, 5) ∧
    getTrendingCoins (fun _ => ApiOutcome.connReset) = ([], 5) := by
  refine ⟨?_, ?_, ?_⟩
  · exact retryExhaustion_neutral_result.1 _ (fun i => by
      by_cases h1 : i = 1 <;> by_cases h2 : i = 2 <;> simp [h1, h2, isErrorOutcome])
  · exact retryExhaustion_neutral_result.2.1 _ (fun i => rfl)
  · exact retryExhaustion_neutral_result.2.2 _ (fun i => rfl)

/-! ## Rate-limited client: worker wait computation and dispatch spacing
Embeds the wait logic of `processQueue` (lines 160-177), the
`lastRequestTime` update on settlement (line 186), and the backoff
assignment of `handleApiError` on a 429
(`backoffTime = Date.now() + (retryAfterSeconds + 3) * 1000`,
lines 232-254). -/

def MIN_REQUEST_INTERVAL_MS : Nat := 1500

/-- The limiter fields of the client (lines 119-120), in ms. -/
structure LimiterState where
  lastRequestTime : Nat
  backoffTime : Nat
  deriving DecidableEq, Repr

/-- The wait `processQueue` sleeps before dispatching the next queued call
(lines 160-173).  Note the `if/else`: when the backoff deadline lies in the
future the worker waits exactly until the deadline and the minimum-interval
check in the `else` branch is not consulted. -/
def computeWaitTime (now : Nat) (s : LimiterState) : Nat :=
  if now < s.backoffTime then s.backoffTime - now
  else if now - s.lastRequestTime < MIN_REQUEST_INTERVAL_MS then
    MIN_REQUEST_INTERVAL_MS - (now - s.lastRequestTime)
  else 0

/-- Modelled from the spec's words: `wait = max(0, backoffUntil - now,
minInterval - (now - lastCallTime))`, computed over the integers.  Exists
only to compare against `computeWaitTime`. -/
def specWaitFormula (now : Nat) (s : LimiterState) : Int :=
  max 0 (max ((s.backoffTime : Int) - (now : Int))
    ((MIN_REQUEST_INTERVAL_MS : Int) - ((now : Int) - (s.lastRequestTime : Int))))

/-- A 429 observed while a queued call is executing: `offset` ms after the
call's dispatch, `handleApiError` sets
`backoffTime = that moment + (retryAfterSeconds + 3) * 1000`.  The
retry-after hint is the parsed header value or the 60 s default, a natural
number. -/
structure BackoffEvent where
  offset : Nat
  retryAfterSeconds : Nat
  deriving DecidableEq, Repr

/-- One queued call as the single drain worker sees it: the worker begins
processing it `arrivalGap` ms after the previous call settled (0 when it
loops immediately), the call's execution reports the listed 429s in order,
and the call settles `duration` ms after its dispatch, at which moment
`lastRequestTime := Date.now()` (line 186). -/
structure QueuedCall where
  arrivalGap : Nat
  events : List BackoffEvent
  duration : Nat
  deriving DecidableEq, Repr

/-- Processing one queued call: sleep `computeWaitTime`, dispatch, apply
the call's 429 backoff assignments, record the settlement time.  Returns
the new limiter state and the dispatch timestamp. -/
def stepCall (s : LimiterState) (c : QueuedCall) : LimiterState × Nat :=
  let now := s.lastRequestTime + c.arrivalGap
  let dispatch := now + computeWaitTime now s
  let backoff := c.events.foldl
    (fun _ e => dispatch + e.offset + (e.retryAfterSeconds + 3) * 1000)
    s.backoffTime
  (⟨dispatch + c.duration, backoff⟩, dispatch)

/-- The dispatch timestamps of a queue of calls drained in order. -/
def dispatchTimes (s : LimiterState) : List QueuedCall → List Nat
  | [] => []
  | c :: cs => (stepCall s c).2 :: dispatchTimes (stepCall s c).1 cs

/-- Invariant tying the limiter state to the last dispatch time `d`: the
last settlement is not before the dispatch, and any pending backoff
deadline was installed during a call, hence lies at least
`(retryAfter + 3) s ≥ 3000 ms` past that call's dispatch. -/
def LimiterInv (s : LimiterState) (d : Nat) : Prop :=
  d ≤ s.lastRequestTime ∧
  (s.backoffTime ≤ s.lastRequestTime ∨ d + 3000 ≤ s.backoffTime)

theorem foldl_backoff_last (dispatch : Nat) (b : Nat) :
    ∀ events : List BackoffEvent, events ≠ [] →
      ∃ e ∈ events,
        events.foldl
          (fun _ x => dispatch + x.offset + (x.retryAfterSeconds + 3) * 1000) b
          = dispatch + e.offset + (e.retryAfterSeconds + 3) * 1000 := by
  intro events
  induction events generalizing b with
  | nil => intro h; exact absurd rfl h
  | cons e es ih =>
    intro _
    cases es with
    | nil => exact ⟨e, List.mem_singleton_self e, rfl⟩
    | cons f fs =>
      obtain ⟨g, hg, hfold⟩ := ih (b := dispatch + e.offset +
        (e.retryAfterSeconds + 3) * 1000) (List.cons_ne_nil f fs)
      exact ⟨g, List.mem_cons_of_mem e hg, hfold⟩

theorem stepCall_establishes_inv (s : LimiterState) (c : QueuedCall) :
    LimiterInv (stepCall s c).1 (stepCall s c).2 := by
  unfold stepCall LimiterInv
  simp only
  constructor
  · omega
  · cases hev : c.events with
    | nil => left; simp [computeWaitTime]; split <;> omega
    | cons e es =>
      right
      obtain ⟨g, hg, hfold⟩ :=
        foldl_backoff_last
          (s.lastRequestTime + c.arrivalGap +
            computeWaitTime (s.lastRequestTime + c.arrivalGap) s)
          s.backoffTime (e :: es) (List.cons_ne_nil e es)
      rw [hfold]
      have : 3000 ≤ (g.retryAfterSeconds + 3) * 1000 := by omega
      omega

theorem stepCall_spacing (s : LimiterState) (c : QueuedCall) (d : Nat)
    (hinv : LimiterInv s d) :
    d + MIN_REQUEST_INTERVAL_MS ≤ (stepCall s c).2 := by
  obtain ⟨hlast, hback⟩ := hinv
  unfold stepCall
  simp only
  unfold computeWaitTime MIN_REQUEST_INTERVAL_MS at *
  split
  · rcases hback with hb | hb
    · omega
    · omega
  · split <;> omega

theorem dispatchTimes_chain_from (cs : List QueuedCall) :
    ∀ (s : LimiterState) (d : Nat), LimiterInv s d →
      List.Chain' (fun a b => a + MIN_REQUEST_INTERVAL_MS ≤ b)
        (d :: dispatchTimes s cs) := by
  induction cs with
  | nil => intro s d _; simp [dispatchTimes]
  | cons c cs ih =>
    intro s d hinv
    rw [dispatchTimes]
    exact List.Chain'.cons (stepCall_spacing s c d hinv)
      (ih (stepCall s c).1 (stepCall s c).2 (stepCall_establishes_inv s c))

/-- C2 counterexample:  A reachable limiter history: from the initial
state the worker dispatches a call at t = 2000 which suffers a 429 with
`retry-after: 0` (backoff deadline 5000) yet succeeds on an in-call retry,
settling at t = 4200.  Processing the next queued call at t = 4200, the
code sleeps `backoffTime - now = 800` ms, while the claimed formula
`max(0, backoffUntil - now, minInterval - (now - lastCallTime))`
equals 1500 — the worker's sleep is not that maximum. -/
theorem rateLimiter_wait_not_spec_formula :
    stepCall ⟨0, 0⟩ ⟨2000, [⟨0, 0⟩], 2200⟩ = (⟨4200, 5000⟩, 2000) ∧
    computeWaitTime 4200 ⟨4200, 5000⟩ = 800 ∧
    specWaitFormula 4200 ⟨4200, 5000⟩ = 1500 ∧ (800 : Nat) ≠ 1500 := by
  refine ⟨by decide, by decide, by decide, by decide⟩

/-- C2 amended:  The worker sleeps `backoffUntil - now` whenever the
backoff deadline is in the future (ignoring the minimum interval), and
`max(0, minInterval - (now - lastCallTime))` otherwise — not the maximum of
all three quantities.  Nevertheless the spacing guarantee holds: along any
drain history, consecutive dispatch timestamps differ by at least
`MIN_REQUEST_INTERVAL_MS`, because a pending backoff deadline always lies
at least `(retryAfter + 3) s ≥ 3000 ms ≥ minInterval` past the dispatch of
the call that installed it. -/
theorem rateLimiter_dispatch_spacing (s : LimiterState)
    (cs : List QueuedCall) :
    List.Chain' (fun a b => a + MIN_REQUEST_INTERVAL_MS ≤ b)
      (dispatchTimes s cs) := by
  cases cs with
  | nil => simp [dispatchTimes]
  | cons c cs =>
    rw [dispatchTimes]
    exact dispatchTimes_chain_from cs (stepCall s c).1 (stepCall s c).2
      (stepCall_establishes_inv s c)

/-! ## Time-series retention: `syncPoolChart`
Embeds `syncPoolChart(poolId)` (`defiLlamaSync.service.ts` lines 734-837)
over a store of `PoolChart` rows.  Per the Prisma schema, `PoolChart`'s
only unique constraint is the synthetic uuid primary key `id`; the pair
`(poolId, timestamp)` carries a non-unique `@@index` only. -/

def SEVEN_DAYS_MS : Nat := 7 * 24 * 60 * 60 * 1000

/-- One fetched time-series point (`PoolChartData`). -/
structure ChartPoint where
  timestamp : Nat
  tvlUsd : Int
  apy : Option Int
  apyBase : Option Int
  apyReward : Option Int
  deriving DecidableEq, Repr

/-- One persisted `PoolChart` row; `rowId` is the uuid primary key the
store generates for each inserted row. -/
structure ChartRow where
  rowId : Nat
  poolId : String
  timestamp : Nat
  tvlUsd : Int
  apy : Option Int
  apyBase : Option Int
  apyReward : Option Int
  deriving DecidableEq, Repr

/-- Inserting one row under `skipDuplicates: true`: the row is skipped only
when it collides with a present row on a unique constraint, and the
table's only unique constraint is the primary key `rowId`. -/
def insertRowSkip (db : List ChartRow) (r : ChartRow) : List ChartRow :=
  if db.any (fun x => x.rowId == r.rowId) then db else db ++ [r]

/-- Embeds `prisma.poolChart.createMany({data, skipDuplicates: true})`
(lines 785-795). -/
def createManySkipDuplicates (db : List ChartRow) (rows : List ChartRow) :
    List ChartRow :=
  rows.foldl insertRowSkip db

/-- The fetched points kept by the retention filter
(`new Date(point.timestamp) >= sevenDaysAgo`, lines 756-758). -/
def recentPoints (cutoff : Nat) (fetched : List ChartPoint) : List ChartPoint :=
  fetched.filter (fun p => decide (cutoff ≤ p.timestamp))

/-- Embeds `prisma.poolChart.deleteMany({where: {poolId, timestamp: {lt:
sevenDaysAgo}}})` (lines 766-771). -/
def deleteOldRows (db : List ChartRow) (pid : String) (cutoff : Nat) :
    List ChartRow :=
  db.filter (fun r => !(r.poolId == pid && decide (r.timestamp < cutoff)))

/-- The rows built from the kept points (lines 786-793); the store assigns
each a fresh uuid, modelled as `nextId, nextId + 1, ...`. -/
def newChartRows (pid : String) (nextId : Nat) (recent : List ChartPoint) :
    List ChartRow :=
  recent.enum.map (fun ip =>
    ⟨nextId + ip.1, pid, ip.2.timestamp, ip.2.tvlUsd, ip.2.apy, ip.2.apyBase,
      ip.2.apyReward⟩)

/-- Embeds `syncPoolChart(poolId)` as a store transformer: compute the 7-day
cutoff, fetch, and — when the fetch is empty — return at once (lines
750-753, *before* any deletion); otherwise filter the fetched points to the
cutoff, delete this pool's rows older than the cutoff, and insert the kept
points in 100-chunks through `createMany(..., skipDuplicates)`.  (The
source computes the cutoff with a calendar-day subtraction; it is a fixed
7-day offset here.) -/
def syncPoolChart (db : List ChartRow) (nextId : Nat) (pid : String)
    (now : Nat) (fetched : List ChartPoint) : List ChartRow :=
  if fetched.length = 0 then db
  else
    (chunkArray
      (newChartRows pid nextId (recentPoints (now - SEVEN_DAYS_MS) fetched))
      100).foldl
      createManySkipDuplicates (deleteOldRows db pid (now - SEVEN_DAYS_MS))

theorem foldl_createMany_eq (ls : List (List ChartRow)) :
    ∀ db, ls.foldl createManySkipDuplicates db =
      createManySkipDuplicates db ls.flatten := by
  induction ls with
  | nil => intro db; rfl
  | cons a ls ih =>
    intro db
    rw [List.foldl_cons, ih, List.flatten_cons]
    unfold createManySkipDuplicates
    rw [List.foldl_append]

theorem mem_createMany (rows : List ChartRow) :
    ∀ db r, r ∈ createManySkipDuplicates db rows → r ∈ db ∨ r ∈ rows := by
  induction rows with
  | nil => intro db r h; exact Or.inl h
  | cons x xs ih =>
    intro db r h
    unfold createManySkipDuplicates at h
    rw [List.foldl_cons] at h
    rcases ih (insertRowSkip db x) r h with hdb | hxs
    · unfold insertRowSkip at hdb
      by_cases hc : db.any (fun y => y.rowId == x.rowId)
      · rw [if_pos hc] at hdb; exact Or.inl hdb
      · rw [if_neg hc] at hdb
        rcases List.mem_append.mp hdb with h1 | h2
        · exact Or.inl h1
        · exact Or.inr (by rw [List.mem_singleton.mp h2]; exact
            List.mem_cons_self x xs)
    · exact Or.inr (List.mem_cons_of_mem x hxs)

theorem createMany_length_of_fresh (rows : List ChartRow) :
    ∀ db, (∀ r ∈ rows, ∀ x ∈ db, x.rowId ≠ r.rowId) →
      (rows.map (fun r => r.rowId)).Nodup →
      (createManySkipDuplicates db rows).length = db.length + rows.length := by
  induction rows with
  | nil => intro db _ _; rfl
  | cons x xs ih =>
    intro db hfresh hnd
    unfold createManySkipDuplicates
    rw [List.foldl_cons]
    have hnoc : db.any (fun y => y.rowId == x.rowId) = false := by
      rw [List.any_eq_false]
      intro y hy
      simp [hfresh x (List.mem_cons_self x xs) y hy]
    have hins : insertRowSkip db x = db ++ [x] := by
      simp [insertRowSkip, hnoc]
    rw [hins]
    rw [List.map_cons, List.nodup_cons] at hnd
    have := ih (db ++ [x]) (fun r hr y hy => by
      rcases List.mem_append.mp hy with h1 | h2
      · exact hfresh r (List.mem_cons_of_mem x hr) y h1
      · rw [List.mem_singleton.mp h2]
        intro hcontra
        exact hnd.1 (by rw [hcontra]; exact List.mem_map_of_mem _ hr)) hnd.2
    unfold createManySkipDuplicates at this
    rw [this]
    simp [List.length_append]
    omega

/-- The stale row used to refute the retention claim on an empty fetch. -/
def staleRow : ChartRow := ⟨0, "p1", 0, 0, none, none, none⟩

/-- C5 counterexample:  A completed `syncPoolChart` run whose upstream
fetch returned zero points leaves the store untouched — the early return on
an empty chart (lines 750-753) precedes the deletion — so a persisted point
far older than `now - 7 days` survives the run, violating the retention
invariant as claimed. -/
theorem syncPoolChart_emptyFetch_keeps_stale :
    syncPoolChart [staleRow] 1 "p1" (SEVEN_DAYS_MS + 1000) [] = [staleRow] ∧
    staleRow.poolId = "p1" ∧
    staleRow.timestamp < (SEVEN_DAYS_MS + 1000) - SEVEN_DAYS_MS := by
  refine ⟨rfl, rfl, by decide⟩

/-- C5 amended:  After a completed `syncPoolChart(poolId)` run whose
fetch returned at least one point (and whose store writes succeeded), every
persisted point for that pool satisfies `timestamp ≥ now - 7 days`: older
points are deleted and fetched points are filtered to the cutoff before
insertion.  A run that fetched zero points returns before the deletion and
leaves stale points in place.  And because each inserted row receives a
fresh synthetic primary key — the only unique constraint on the table — no
insert is skipped: a re-fetched point whose pool and timestamp are already
present is inserted again as an additional row, not silently skipped, as
the resulting row count records. -/
theorem syncPoolChart_retention (db : List ChartRow) (nextId : Nat)
    (pid : String) (now : Nat) (fetched : List ChartPoint)
    (hne : fetched ≠ [])
    (hfresh : ∀ r ∈ db, r.rowId < nextId) :
    (∀ r ∈ syncPoolChart db nextId pid now fetched,
      r.poolId = pid → now - SEVEN_DAYS_MS ≤ r.timestamp) ∧
    (syncPoolChart db nextId pid now fetched).length =
      (deleteOldRows db pid (now - SEVEN_DAYS_MS)).length +
        (recentPoints (now - SEVEN_DAYS_MS) fetched).length := by
  have hlen : ¬(fetched.length = 0) := by
    simpa [List.length_eq_zero] using hne
  have hrun : syncPoolChart db nextId pid now fetched =
      createManySkipDuplicates
        (deleteOldRows db pid (now - SEVEN_DAYS_MS))
        (newChartRows pid nextId (recentPoints (now - SEVEN_DAYS_MS) fetched)) := by
    unfold syncPoolChart
    rw [if_neg hlen]
    rw [show (100 : Nat) = 99 + 1 from rfl, foldl_createMany_eq,
      chunkArray_flatten]
  constructor
  · intro r hr hpid
    rw [hrun] at hr
    rcases mem_createMany _ _ r hr with hdb | hnew
    · have := (List.mem_filter.mp hdb).2
      simp only [hpid, beq_self_eq_true, Bool.true_and, Bool.not_eq_true',
        decide_eq_false_iff_not, Nat.not_lt] at this
      exact this
    · obtain ⟨ip, hip, hrow⟩ := List.mem_map.mp hnew
      have hpt : ip.2 ∈ recentPoints (now - SEVEN_DAYS_MS) fetched :=
        List.snd_mem_of_mem_enum hip
      have := (List.mem_filter.mp hpt).2
      rw [← hrow]
      simpa using this
  · rw [hrun]
    have hlen2 : (newChartRows pid nextId
        (recentPoints (now - SEVEN_DAYS_MS) fetched)).length =
        (recentPoints (now - SEVEN_DAYS_MS) fetched).length := by
      simp [newChartRows, List.enum_length]
    rw [← hlen2]
    apply createMany_length_of_fresh
    · intro r hr x hx
      obtain ⟨ip, hip, hrow⟩ := List.mem_map.mp hr
      have hxdb : x ∈ db := List.mem_of_mem_filter hx
      have := hfresh x hxdb
      rw [← hrow]
      simp only
      omega
    · have h1 : (newChartRows pid nextId
          (recentPoints (now - SEVEN_DAYS_MS) fetched)).map
            (fun r => r.rowId) =
          (recentPoints (now - SEVEN_DAYS_MS) fetched).enum.map
            (fun ip => nextId + ip.1) := by
        unfold newChartRows
        rw [List.map_map]
        rfl
      have h2 : ((recentPoints (now - SEVEN_DAYS_MS) fetched).enum.map
            Prod.fst).map (fun i => nextId + i) =
          (recentPoints (now - SEVEN_DAYS_MS) fetched).enum.map
            (fun ip => nextId + ip.1) := by
        rw [List.map_map]
        rfl
      rw [h1, ← h2, List.enum_map_fst]
      exact (List.nodup_range _).map
        (fun a b hab => by omega)

/-- Witness for C5 (amended): a store holding one in-window row for pool
`"p1"`, refreshed with one in-window fetched point at
`now = SEVEN_DAYS_MS + 1000`. -/
theorem syncPoolChart_retention_witness :
    (∀ r ∈ syncPoolChart [⟨0, "p1", 2000, 5, none, none, none⟩] 1 "p1"
        (SEVEN_DAYS_MS + 1000) [⟨1500, 7, none, none, none⟩],
      r.poolId = "p1" →
        (SEVEN_DAYS_MS + 1000) - SEVEN_DAYS_MS ≤ r.timestamp) ∧
    (syncPoolChart [⟨0, "p1", 2000, 5, none, none, none⟩] 1 "p1"
        (SEVEN_DAYS_MS + 1000) [⟨1500, 7, none, none, none⟩]).length =
      (deleteOldRows [⟨0, "p1", 2000, 5, none, none, none⟩] "p1"
        ((SEVEN_DAYS_MS + 1000) - SEVEN_DAYS_MS)).length +
      (recentPoints ((SEVEN_DAYS_MS + 1000) - SEVEN_DAYS_MS)
        [⟨1500, 7, none, none, none⟩]).length :=
  syncPoolChart_retention _ _ _ _ _ (by simp) (by simp)

/-! ## Update frame: existing rows receive only volatile fields
Embeds the update payloads of `syncProtocols` (lines 221-234) and
`syncPools` (lines 517-534). -/

/-- A persisted `Protocol` row, with the fields the create path writes
(lines 179-202). -/
structure ProtocolRow where
  id : String
  name : String
  slug : String
  address : Option String
  symbol : Option String
  description : Option String
  chain : Option JStr
  logo : Option String
  audits : Option String
  auditLinks : List String
  github : Option String
  category : Option String
  chains : List JStr
  tvl : Option Int
  change1h : Option Int
  change1d : Option Int
  change7d : Option Int
  mcap : Option Int
  twitter : Option String
  url : Option String
  updatedAt : Nat
  deriving DecidableEq, Repr

/-- The `prisma.protocol.update` payload for an existing protocol
(lines 221-234): only `tvl`, `change1h`, `change1d`, `change7d`, `mcap`
and `updatedAt` are written. -/
def applyProtocolUpdate (row : ProtocolRow) (rec : Protocol) (now : Nat) :
    ProtocolRow :=
  { row with
    tvl := rec.tvl
    change1h := rec.change_1h
    change1d := rec.change_1d
    change7d := rec.change_7d
    mcap := rec.mcap
    updatedAt := now }

/-- A persisted `Pool` row, with the fields the create path writes
(lines 392-408). -/
structure PoolRow where
  id : String
  chain : JStr
  project : String
  symbol : String
  tvlUsd : Int
  apyBase : Option Int
  apyReward : Option Int
  apy : Option Int
  rewardTokens : Option String
  stablecoin : Bool
  ilRisk : Option String
  exposure : Option String
  poolMeta : Option String
  updatedAt : Nat
  deriving DecidableEq, Repr

/-- A persisted `PoolToken` row (composite-unique `(poolId,
tokenAddress)`), created only alongside new pools (lines 418-503). -/
structure PoolTokenRow where
  poolId : String
  tokenAddress : JStr
  chain : JStr
  deriving DecidableEq, Repr

/-- The `prisma.pool.update` payload for an existing pool (lines 520-531):
only `tvlUsd`, `apyBase`, `apyReward`, `apy` and `updatedAt` are
written. -/
def applyPoolUpdate (row : PoolRow) (rec : Pool) (now : Nat) : PoolRow :=
  { row with
    tvlUsd := rec.tvlUsd
    apyBase := rec.apyBase
    apyReward := rec.apyReward
    apy := rec.apy
    updatedAt := now }

/-- The whole update pass of `syncPools` for the `existingPools` slice
(lines 517-534): each matching `Pool` row receives `applyPoolUpdate`; the
`PoolToken` table is not touched on this path ("不更新底层代币",
line 516). -/
def updateExistingPools (pools : List PoolRow) (tokens : List PoolTokenRow)
    (recs : List Pool) (now : Nat) : List PoolRow × List PoolTokenRow :=
  (recs.foldl (fun acc rec =>
      acc.map (fun row =>
        if row.id == rec.pool then applyPoolUpdate row rec now else row))
    pools, tokens)

/-- C9:  The reconciliation update writes only volatile fields.  For a
protocol row: `tvl`, the three change percentages, `mcap` and `updatedAt`
are set from the upstream record, and every structural/identity field —
`id`, `slug`, `name`, `chain`, `chains`, `category` and the remaining
display fields — is unchanged.  For a pool row: `tvlUsd`, `apyBase`,
`apyReward`, `apy` and `updatedAt` are set, all other fields are
unchanged, and the update pass leaves the pool's underlying-token rows
exactly as they were. -/
theorem updates_touch_only_volatile_fields :
    (∀ (row : ProtocolRow) (rec : Protocol) (now : Nat),
      (applyProtocolUpdate row rec now).id = row.id ∧
      (applyProtocolUpdate row rec now).slug = row.slug ∧
      (applyProtocolUpdate row rec now).name = row.name ∧
      (applyProtocolUpdate row rec now).chain = row.chain ∧
      (applyProtocolUpdate row rec now).chains = row.chains ∧
      (applyProtocolUpdate row rec now).category = row.category ∧
      (applyProtocolUpdate row rec now).address = row.address ∧
      (applyProtocolUpdate row rec now).symbol = row.symbol ∧
      (applyProtocolUpdate row rec now).description = row.description ∧
      (applyProtocolUpdate row rec now).logo = row.logo ∧
      (applyProtocolUpdate row rec now).audits = row.audits ∧
      (applyProtocolUpdate row rec now).auditLinks = row.auditLinks ∧
      (applyProtocolUpdate row rec now).github = row.github ∧
      (applyProtocolUpdate row rec now).twitter = row.twitter ∧
      (applyProtocolUpdate row rec now).url = row.url ∧
      (applyProtocolUpdate row rec now).tvl = rec.tvl ∧
      (applyProtocolUpdate row rec now).change1h = rec.change_1h ∧
      (applyProtocolUpdate row rec now).change1d = rec.change_1d ∧
      (applyProtocolUpdate row rec now).change7d = rec.change_7d ∧
      (applyProtocolUpdate row rec now).mcap = rec.mcap ∧
      (applyProtocolUpdate row rec now).updatedAt = now) ∧
    (∀ (row : PoolRow) (rec : Pool) (now : Nat),
      (applyPoolUpdate row rec now).id = row.id ∧
      (applyPoolUpdate row rec now).chain = row.chain ∧
      (applyPoolUpdate row rec now).project = row.project ∧
      (applyPoolUpdate row rec now).symbol = row.symbol ∧
      (applyPoolUpdate row rec now).rewardTokens = row.rewardTokens ∧
      (applyPoolUpdate row rec now).stablecoin = row.stablecoin ∧
      (applyPoolUpdate row rec now).ilRisk = row.ilRisk ∧
      (applyPoolUpdate row rec now).exposure = row.exposure ∧
      (applyPoolUpdate row rec now).poolMeta = row.poolMeta ∧
      (applyPoolUpdate row rec now).tvlUsd = rec.tvlUsd ∧
      (applyPoolUpdate row rec now).apyBase = rec.apyBase ∧
      (applyPoolUpdate row rec now).apyReward = rec.apyReward ∧
      (applyPoolUpdate row rec now).apy = rec.apy ∧
      (applyPoolUpdate row rec now).updatedAt = now) ∧
    (∀ (pools : List PoolRow) (tokens : List PoolTokenRow)
        (recs : List Pool) (now : Nat),
      (updateExistingPools pools tokens recs now).2 = tokens) := by
  refine ⟨?_, ?_, ?_⟩
  · intro row rec now
    refine ⟨rfl, rfl, rfl, rfl, rfl, rfl, rfl, rfl, rfl, rfl, rfl, rfl, rfl,
      rfl, rfl, rfl, rfl, rfl, rfl, rfl, rfl⟩
  · intro row rec now
    refine ⟨rfl, rfl, rfl, rfl, rfl, rfl, rfl, rfl, rfl, rfl, rfl, rfl, rfl,
      rfl⟩
  · intro pools tokens recs now
    rfl

end DemindSync
